import Mathlib

/-!
Verification development for the copilot-sidebar content-extraction core.

The JavaScript sources are shallowly embedded:
* strings are `List Char`; JavaScript `String.prototype.trim`, `toLowerCase`,
  `split('\n')` and friends are re-implemented over `List Char`;
* numbers (scores, weights) are exact rationals `ℚ` (floating point rounding
  is abstracted away, every constant in the source is decimal);
* the DOM is an inductive tree `Node`; per-element computed visibility
  (`isHidden` in the source, which reads computed style and the bounding
  rect) is carried as a boolean field on each element;
* the regular-expression pipeline of `filterMarkdown` is embedded through a
  small backtracking matcher with JavaScript semantics (leftmost match,
  greedy/lazy quantifiers, ordered alternation, zero-width lookahead) and
  each regex literal of the source is translated to a syntax tree.
-/

set_option maxRecDepth 10000

abbrev Chars := List Char

def str (s : String) : Chars := s.data

/-- JavaScript whitespace class (`\s`, and the set used by `trim`):
space, tab, newline, carriage return, vertical tab, form feed,
non-breaking space, BOM. -/
def jsWs (c : Char) : Bool :=
  c = ' ' || c = '\t' || c = '\n' || c = '\r' ||
  c = Char.ofNat 11 || c = Char.ofNat 12 ||
  c = Char.ofNat 160 || c = Char.ofNat 65279

/-- JavaScript `String.prototype.trim` over `List Char`. -/
def jsTrim (s : Chars) : Chars :=
  ((s.dropWhile jsWs).reverse.dropWhile jsWs).reverse

/-- JavaScript `String.prototype.toLowerCase` (ASCII fragment). -/
def lowerStr (s : Chars) : Chars := s.map Char.toLower

/-- `a.startsWith b` on char lists (used for `/^.../` anchored regex tests
and for `line.trim().startsWith('#')`). -/
def leadsWith : Chars → Chars → Bool
  | _, [] => true
  | [], _ :: _ => false
  | c :: cs, d :: ds => c = d && leadsWith cs ds

/-- Substring containment (used for un-anchored regex alternatives such as
`/trending|popular|related|recommended/` tested against a class/id string). -/
def containsSeq : Chars → Chars → Bool
  | s, pat => (List.range (s.length + 1)).any fun i => leadsWith (s.drop i) pat

/-- Split on a separator character: JavaScript `s.split(sep)`. -/
def splitOn (sep : Char) : Chars → List Chars
  | [] => [[]]
  | c :: cs =>
      let rest := splitOn sep cs
      if c = sep then [] :: rest
      else match rest with
        | [] => [[c]]
        | r :: rs => (c :: r) :: rs

/-- Join with a separator character: JavaScript `parts.join(sep)`. -/
def joinSep (sep : Char) : List Chars → Chars
  | [] => []
  | [x] => x
  | x :: y :: xs => x ++ sep :: joinSep sep (y :: xs)

/-! ## ScoringEngine: final-score combination

`scoreContentElement` (scoring-algorithm document, Usage Example section)
computes the weighted total over the six component scores and applies the
multiplicative noise penalty, then clamps. `ContentScorer.calculateFinalScore`
(enhanced-content-extractor.js) computes the same combination: it folds the
weights over the five locally computed components, adds the semantic score
with its weight, multiplies by `(1 - noiseScore * 0.5)`, and clamps. -/

/-- The six component scores of a candidate. -/
structure ComponentScores where
  textQuality : ℚ
  contentDensity : ℚ
  articleStructure : ℚ
  semanticScore : ℚ
  positionScore : ℚ
  metadataScore : ℚ
deriving DecidableEq

/-- The weight table of the scoring engine, in the iteration order of
`Object.entries(scores)` in `scoreContentElement`. -/
def weightedEntries (s : ComponentScores) : List (ℚ × ℚ) :=
  [(s.textQuality, 0.25), (s.contentDensity, 0.20), (s.articleStructure, 0.20),
   (s.semanticScore, 0.15), (s.positionScore, 0.10), (s.metadataScore, 0.10)]

/-- `scoreContentElement` (final-score part): weighted accumulation loop,
noise penalty, and the clamp `Math.max(0, Math.min(1, finalScore))`. -/
def scoreContentElement (s : ComponentScores) (noiseScore : ℚ) : ℚ :=
  let totalScore := (weightedEntries s).foldl (fun acc p => acc + p.1 * p.2) 0
  let finalScore := totalScore * (1 - noiseScore * 0.5)
  max 0 (min 1 finalScore)

namespace ContentScorer

/-- `ContentScorer.calculateFinalScore`: the five `calculateAllScores`
components are folded against `this.weights`, the candidate's semantic score
is added with weight `0.15`, the noise penalty `noiseScore * 0.5` is applied
multiplicatively, and the result is clamped to `[0,1]`. -/
def calculateFinalScore (textQuality contentDensity articleStructure
    positionScore metadataScore semanticScore noiseScore : ℚ) : ℚ :=
  let totalScore :=
    [(textQuality, (0.25 : ℚ)), (contentDensity, 0.20), (articleStructure, 0.20),
     (positionScore, 0.10), (metadataScore, 0.10)].foldl
      (fun acc p => acc + p.1 * p.2) 0
  let totalScore := totalScore + semanticScore * 0.15
  let noisePenalty := noiseScore * 0.5
  let totalScore := totalScore * (1 - noisePenalty)
  max 0 (min 1 totalScore)

end ContentScorer

/-- The weighted sub-score sum named by the specification:
`0.25·textQuality + 0.20·contentDensity + 0.20·articleStructure +
0.15·semanticScore + 0.10·positionScore + 0.10·metadataScore`. -/
def weightedSum (s : ComponentScores) : ℚ :=
  0.25 * s.textQuality + 0.20 * s.contentDensity + 0.20 * s.articleStructure +
  0.15 * s.semanticScore + 0.10 * s.positionScore + 0.10 * s.metadataScore

/-- Clamp to the unit interval, `Math.max(0, Math.min(1, x))`. -/
def clamp01 (x : ℚ) : ℚ := max 0 (min 1 x)

theorem scoreContentElement_eq (s : ComponentScores) (n : ℚ) :
    scoreContentElement s n = clamp01 (weightedSum s * (1 - n * 0.5)) := by
  simp only [scoreContentElement, weightedEntries, List.foldl, clamp01, weightedSum]
  ring_nf

theorem calculateFinalScore_eq (s : ComponentScores) (n : ℚ) :
    ContentScorer.calculateFinalScore s.textQuality s.contentDensity
      s.articleStructure s.positionScore s.metadataScore s.semanticScore n
      = clamp01 (weightedSum s * (1 - n * 0.5)) := by
  simp only [ContentScorer.calculateFinalScore, List.foldl, clamp01, weightedSum]
  ring_nf

theorem clamp01_mem (x : ℚ) : 0 ≤ clamp01 x ∧ clamp01 x ≤ 1 := by
  constructor
  · exact le_max_left 0 _
  · simp only [clamp01, max_le_iff]
    exact ⟨zero_le_one, min_le_left 1 x⟩

theorem clamp01_mono {a b : ℚ} (h : a ≤ b) : clamp01 a ≤ clamp01 b :=
  max_le_max le_rfl (min_le_min le_rfl h)

/-- C1. For every candidate, the final score equals the weighted sum of the
six sub-scores (weights 0.25, 0.20, 0.20, 0.15, 0.10, 0.10) multiplied by
`(1 - noiseScore * 0.5)`, and the result is clamped to `[0,1]` — for both the
scoring-algorithm document's `scoreContentElement` and
`ContentScorer.calculateFinalScore` of the enhanced extractor. -/
theorem finalScore_is_weighted_noise_clamped (s : ComponentScores) (n : ℚ) :
    scoreContentElement s n = clamp01 (weightedSum s * (1 - n * 0.5)) ∧
    ContentScorer.calculateFinalScore s.textQuality s.contentDensity
      s.articleStructure s.positionScore s.metadataScore s.semanticScore n
      = clamp01 (weightedSum s * (1 - n * 0.5)) ∧
    0 ≤ scoreContentElement s n ∧ scoreContentElement s n ≤ 1 :=
  ⟨scoreContentElement_eq s n, calculateFinalScore_eq s n, by
    rw [scoreContentElement_eq]; exact (clamp01_mem _).1, by
    rw [scoreContentElement_eq]; exact (clamp01_mem _).2⟩

/-- C5. Holding the six sub-scores fixed (each nonnegative, as every
component scorer clamps its result into `[0,1]`), the final score is
monotonically non-increasing in `noiseScore` over `[0,1]`; and whenever the
weighted sub-score sum is `0`, the final score is `0` for every noise value. -/
theorem finalScore_noise_monotone (s : ComponentScores)
    (htq : 0 ≤ s.textQuality) (hcd : 0 ≤ s.contentDensity)
    (has : 0 ≤ s.articleStructure) (hse : 0 ≤ s.semanticScore)
    (hpo : 0 ≤ s.positionScore) (hme : 0 ≤ s.metadataScore)
    (n₁ n₂ : ℚ) (h0 : 0 ≤ n₁) (h12 : n₁ ≤ n₂) (h1 : n₂ ≤ 1) :
    scoreContentElement s n₂ ≤ scoreContentElement s n₁ ∧
    (weightedSum s = 0 → ∀ n : ℚ, scoreContentElement s n = 0) := by
  constructor
  · rw [scoreContentElement_eq, scoreContentElement_eq]
    apply clamp01_mono
    have hw : 0 ≤ weightedSum s := by
      unfold weightedSum; positivity
    apply mul_le_mul_of_nonneg_left _ hw
    linarith
  · intro hz n
    rw [scoreContentElement_eq, hz, zero_mul]
    simp [clamp01]

/-- Witness for C5 at concrete inputs. -/
theorem finalScore_noise_monotone_witness :
    scoreContentElement ⟨0.5, 0.5, 0.5, 0.5, 0.5, 0.5⟩ 1
      ≤ scoreContentElement ⟨0.5, 0.5, 0.5, 0.5, 0.5, 0.5⟩ 0 ∧
    (weightedSum ⟨0.5, 0.5, 0.5, 0.5, 0.5, 0.5⟩ = 0 →
      ∀ n : ℚ, scoreContentElement ⟨0.5, 0.5, 0.5, 0.5, 0.5, 0.5⟩ n = 0) :=
  finalScore_noise_monotone ⟨0.5, 0.5, 0.5, 0.5, 0.5, 0.5⟩
    (by norm_num) (by norm_num) (by norm_num) (by norm_num) (by norm_num)
    (by norm_num) 0 1 (by norm_num) (by norm_num) (by norm_num)

/-! ## DOM model

A document is a tree of element and text nodes. An element carries its tag
name (lower case), `id` attribute, `class` attribute, its computed-visibility
verdict (the result of `isHidden`, which in the source reads computed style
and the bounding rectangle), and its child nodes in document order. -/

inductive Node where
  | text (s : Chars) : Node
  | elem (tag idAttr classAttr : Chars) (hidden : Bool) (children : List Node) : Node

mutual
def nodeDecEq : (a b : Node) → Decidable (a = b)
  | .text s, .text t =>
      match decEq s t with
      | isTrue h => isTrue (by rw [h])
      | isFalse h => isFalse (fun hh => h (by cases hh; rfl))
  | .text _, .elem _ _ _ _ _ => isFalse (fun h => Node.noConfusion h)
  | .elem _ _ _ _ _, .text _ => isFalse (fun h => Node.noConfusion h)
  | .elem t₁ i₁ c₁ h₁ cs₁, .elem t₂ i₂ c₂ h₂ cs₂ =>
      match decEq t₁ t₂, decEq i₁ i₂, decEq c₁ c₂, decEq h₁ h₂, nodeListDecEq cs₁ cs₂ with
      | isTrue a, isTrue b, isTrue c, isTrue d, isTrue e => isTrue (by rw [a, b, c, d, e])
      | isFalse a, _, _, _, _ => isFalse (fun h => a (by cases h; rfl))
      | _, isFalse b, _, _, _ => isFalse (fun h => b (by cases h; rfl))
      | _, _, isFalse c, _, _ => isFalse (fun h => c (by cases h; rfl))
      | _, _, _, isFalse d, _ => isFalse (fun h => d (by cases h; rfl))
      | _, _, _, _, isFalse e => isFalse (fun h => e (by cases h; rfl))
def nodeListDecEq : (a b : List Node) → Decidable (a = b)
  | [], [] => isTrue rfl
  | [], _ :: _ => isFalse (fun h => List.noConfusion h)
  | _ :: _, [] => isFalse (fun h => List.noConfusion h)
  | x :: xs, y :: ys =>
      match nodeDecEq x y, nodeListDecEq xs ys with
      | isTrue a, isTrue b => isTrue (by rw [a, b])
      | isFalse a, _ => isFalse (fun h => a (by cases h; rfl))
      | _, isFalse b => isFalse (fun h => b (by cases h; rfl))
end

instance : DecidableEq Node := nodeDecEq

def Node.tagOf : Node → Chars
  | .text _ => []
  | .elem t _ _ _ _ => t

def Node.idOf : Node → Chars
  | .text _ => []
  | .elem _ i _ _ _ => i

def Node.classOf : Node → Chars
  | .text _ => []
  | .elem _ _ c _ _ => c

def Node.hiddenOf : Node → Bool
  | .text _ => false
  | .elem _ _ _ h _ => h

def Node.childrenOf : Node → List Node
  | .text _ => []
  | .elem _ _ _ _ cs => cs

mutual
/-- `element.textContent`: concatenated text of all descendant text nodes. -/
def textContent : Node → Chars
  | .text s => s
  | .elem _ _ _ _ cs => textContentList cs
def textContentList : List Node → Chars
  | [] => []
  | n :: ns => textContent n ++ textContentList ns
end

mutual
/-- All element nodes of a subtree in document (pre-)order, each paired with
its chain of ancestor elements (nearest first) — the `parentElement` chain. -/
def elemsWithAnc (anc : List Node) : Node → List (Node × List Node)
  | .text _ => []
  | .elem t i c h cs =>
      (Node.elem t i c h cs, anc) ::
        elemsWithAncList (Node.elem t i c h cs :: anc) cs
def elemsWithAncList (anc : List Node) : List Node → List (Node × List Node)
  | [] => []
  | n :: ns => elemsWithAnc anc n ++ elemsWithAncList anc ns
end

/-- Element descendants of a node (excluding the node itself), in document
order: the scope of `element.querySelectorAll`. -/
def descendantElems (n : Node) : List Node :=
  (elemsWithAncList [] n.childrenOf).map Prod.fst

/-- A simple CSS selector, as the source uses them: `.x` matches by class
list membership, `#x` by id, anything else by tag name. -/
def selMatches (sel : Chars) (n : Node) : Bool :=
  match sel with
  | '.' :: cl => ((splitOn ' ' n.classOf).filter (· ≠ [])).any (· = cl)
  | '#' :: i => n.idOf = i
  | t => n.tagOf = t

/-! ## C2: `checkHeadingHierarchy` (scoring-algorithm document) -/

def isHeadingTag (t : Chars) : Bool :=
  t = str "h1" || t = str "h2" || t = str "h3" ||
  t = str "h4" || t = str "h5" || t = str "h6"

/-- `parseInt(heading.tagName[1])` on a heading tag. -/
def headingLevel (t : Chars) : Nat := ((t.drop 1).headD '0').toNat - 48

/-- Numeric levels of `element.querySelectorAll('h1, h2, h3, h4, h5, h6')`
in document order. -/
def headingLevels (el : Node) : List Nat :=
  (descendantElems el).filterMap fun n =>
    if isHeadingTag n.tagOf then some (headingLevel n.tagOf) else none

/-- The scan loop of `checkHeadingHierarchy`: starting from
`previousLevel = 0`, return `false` at the first heading whose level exceeds
the previous level by more than one. -/
def hierarchyLoop : Nat → List Nat → Bool
  | _, [] => true
  | prev, l :: ls => if l > prev + 1 then false else hierarchyLoop l ls

/-- `checkHeadingHierarchy(element)`: `false` for an empty heading list,
otherwise the scan loop from `previousLevel = 0`. -/
def checkHeadingHierarchy (el : Node) : Bool :=
  let hs := headingLevels el
  if hs.isEmpty then false else hierarchyLoop 0 hs

/-- The specification's reading of a hierarchy violation: some heading's
level exceeds the level of the immediately preceding heading by more
than 1. -/
def adjacentSkip (hs : List Nat) : Bool :=
  (hs.zip hs.tail).any fun p => p.1 + 1 < p.2

/-- An element whose heading sequence is the single heading `h2`. -/
def exHeadingDoc : Node :=
  .elem (str "div") [] [] false
    [.elem (str "h2") [] [] false [.text (str "T")]]

/-- C2 counterexample: on a document whose only heading is an `h2`,
`checkHeadingHierarchy` returns `false` although no heading exceeds the
immediately preceding heading's level by more than 1 — the claimed
equivalence fails. -/
theorem checkHeadingHierarchy_claim_false :
    ¬ (checkHeadingHierarchy exHeadingDoc = false ↔
       adjacentSkip (headingLevels exHeadingDoc) = true) := by
  decide

theorem adjacentSkip_cons₂ (a b : Nat) (t : List Nat) :
    adjacentSkip (a :: b :: t) = (decide (a + 1 < b) || adjacentSkip (b :: t)) := by
  simp [adjacentSkip, List.zip]

theorem hierarchyLoop_false_iff (ls : List Nat) :
    ∀ prev, hierarchyLoop prev ls = false ↔ adjacentSkip (prev :: ls) = true := by
  induction ls with
  | nil => intro prev; simp [hierarchyLoop, adjacentSkip]
  | cons l ls ih =>
      intro prev
      rw [adjacentSkip_cons₂]
      by_cases h : l > prev + 1
      · have hd : decide (prev + 1 < l) = true := by simpa using h
        simp [hierarchyLoop, h, hd]
      · have hd : decide (prev + 1 < l) = false := by simpa using h
        simp only [hierarchyLoop, if_neg h, hd, Bool.false_or]
        exact ih l

/-- C2 amended: `checkHeadingHierarchy` returns `false` iff the heading
sequence is empty, or — with a virtual previous level of 0 before the first
heading — some heading's level exceeds the previous level by more than 1
(so a document whose first heading is deeper than `h1` also fails). -/
theorem checkHeadingHierarchy_false_iff (el : Node) :
    checkHeadingHierarchy el = false ↔
      (headingLevels el = [] ∨ adjacentSkip (0 :: headingLevels el) = true) := by
  simp only [checkHeadingHierarchy]
  cases h : headingLevels el with
  | nil => simp
  | cons l ls =>
      constructor
      · intro hf
        refine Or.inr ((hierarchyLoop_false_iff _ 0).mp ?_)
        simpa using hf
      · rintro (hc | hs)
        · exact absurd hc (by simp)
        · simpa using (hierarchyLoop_false_iff (l :: ls) 0).mpr hs

/-! ## C7: noise scoring -/

/-- `combined = className.toLowerCase() + ' ' + id.toLowerCase()`. -/
def combinedClassId (el : Node) : Chars :=
  lowerStr el.classOf ++ ' ' :: lowerStr el.idOf

/-- The six class/id noise-category regexes of `calculateNoiseScore`
(scoring-algorithm document); each category is an alternation of plain
substrings. -/
def noisePatterns : List (List Chars) :=
  [[str "trending", str "popular", str "related", str "recommended"],
   [str "sidebar", str "aside", str "widget", str "ad", str "advertisement"],
   [str "social", str "share", str "comment", str "newsletter"],
   [str "navigation", str "nav", str "menu", str "breadcrumb"],
   [str "footer", str "header", str "banner", str "promo"],
   [str "more-from", str "author-bio", str "tags", str "categories"]]

/-- The three anchored lead-in regexes, each an alternation of prefixes. -/
def noiseContentPatterns : List (List Chars) :=
  [[str "trending", str "popular", str "related", str "more from"],
   [str "advertisement", str "sponsored", str "promoted"],
   [str "subscribe", str "newsletter", str "follow us"]]

/-- Number of descendant `a` elements: `element.querySelectorAll('a').length`. -/
def countAnchors (el : Node) : Nat :=
  ((descendantElems el).filter fun n => n.tagOf = str "a").length

/-- `calculateNoiseScore(element)` of the scoring-algorithm document: the
class/id category loop (stopping at the first matching category, `+0.3`),
the anchored lead-in loop (`+0.4`), the link-density signal
(`linkCount / max(textLength/100, 1) > 0.5`, `+0.3`), the short-text signal
(`textLength < 100`, `+0.2`), capped at `1.0`. -/
def calculateNoiseScore (el : Node) : ℚ :=
  let combined := combinedClassId el
  let s₁ : ℚ := match noisePatterns.find? (fun pat => pat.any (containsSeq combined)) with
    | some _ => 0.3
    | none => 0
  let text := lowerStr (jsTrim (textContent el))
  let s₂ : ℚ := match noiseContentPatterns.find? (fun pat => pat.any (leadsWith text)) with
    | some _ => 0.4
    | none => 0
  let linkDensity : ℚ := (countAnchors el : ℚ) / max ((text.length : ℚ) / 100) 1
  let s₃ : ℚ := if linkDensity > 0.5 then 0.3 else 0
  let s₄ : ℚ := if (text.length : ℚ) < 100 then 0.2 else 0
  min (s₁ + s₂ + s₃ + s₄) 1

namespace NoiseDetector

def elementTypes : List Chars := [str "nav", str "aside", str "footer", str "header"]

/-- The five class/id noise categories of the enhanced `NoiseDetector`. -/
def classNames : List (List Chars) :=
  [[str "trending", str "popular", str "related", str "recommended"],
   [str "sidebar", str "aside", str "widget", str "ad", str "advertisement"],
   [str "social", str "share", str "comment", str "newsletter"],
   [str "navigation", str "nav", str "menu", str "breadcrumb"],
   [str "footer", str "header", str "banner", str "promo"]]

def contentPatterns : List (List Chars) :=
  [[str "trending", str "popular", str "related", str "more from"],
   [str "advertisement", str "sponsored", str "promoted"],
   [str "subscribe", str "newsletter", str "follow us"]]

/-- `NoiseDetector.calculateNoiseScore` (enhanced-content-extractor.js):
`+0.8` for a `nav`/`aside`/`footer`/`header` tag, `+0.6` for the first
matching class/id category, `+0.7` for a lead-in match, `+0.3` when
`linkCount / (textLength/100) > 0.5` (only evaluated when the text is
non-empty), capped at `1.0`. There is no short-text signal. -/
def calculateNoiseScore (el : Node) : ℚ :=
  let s₀ : ℚ := if elementTypes.any (· = el.tagOf) then 0.8 else 0
  let combined := combinedClassId el
  let s₁ : ℚ := match classNames.find? (fun pat => pat.any (containsSeq combined)) with
    | some _ => 0.6
    | none => 0
  let text := lowerStr (jsTrim (textContent el))
  let s₂ : ℚ := match contentPatterns.find? (fun pat => pat.any (leadsWith text)) with
    | some _ => 0.7
    | none => 0
  let s₃ : ℚ :=
    if 0 < text.length then
      if (countAnchors el : ℚ) / ((text.length : ℚ) / 100) > 0.5 then 0.3 else 0
    else 0
  min (s₀ + s₁ + s₂ + s₃) 1

end NoiseDetector

/-- The noise score exactly as the claim states it: the capped sum of
`+0.3` (class/id category match, counted at most once), `+0.4` (lead-in),
`+0.3` (link density above 0.5), `+0.2` (text under 100 characters). -/
def noiseScoreFormula (el : Node) : ℚ :=
  let text := lowerStr (jsTrim (textContent el))
  min ((if noisePatterns.any (fun pat => pat.any (containsSeq (combinedClassId el))) then 0.3 else 0) +
       (if noiseContentPatterns.any (fun pat => pat.any (leadsWith text)) then 0.4 else 0) +
       (if (countAnchors el : ℚ) / max ((text.length : ℚ) / 100) 1 > 0.5 then 0.3 else 0) +
       (if (text.length : ℚ) < 100 then 0.2 else 0)) 1

theorem any_eq_find?_isSome {α : Type} (l : List α) (p : α → Bool) :
    l.any p = (l.find? p).isSome := by
  cases h : l.find? p with
  | some x =>
      have hx := List.find?_some h
      have hm := List.mem_of_find?_eq_some h
      simp only [Option.isSome_some]
      exact List.any_eq_true.mpr ⟨x, hm, hx⟩
  | none =>
      simp only [Option.isSome_none]
      rw [List.any_eq_false]
      intro x hx
      simpa using List.find?_eq_none.mp h x hx

/-- C7 amended (baseline part): the baseline `calculateNoiseScore` equals the
claimed capped-sum formula on every node. -/
theorem calculateNoiseScore_eq_formula (el : Node) :
    calculateNoiseScore el = noiseScoreFormula el := by
  have e₁ := any_eq_find?_isSome noisePatterns
    (fun pat => pat.any (containsSeq (combinedClassId el)))
  have e₂ := any_eq_find?_isSome noiseContentPatterns
    (fun pat => pat.any (leadsWith (lowerStr (jsTrim (textContent el)))))
  simp only [calculateNoiseScore, noiseScoreFormula]
  cases h₁ : noisePatterns.find? (fun pat => pat.any (containsSeq (combinedClassId el))) <;>
    cases h₂ : noiseContentPatterns.find?
        (fun pat => pat.any (leadsWith (lowerStr (jsTrim (textContent el))))) <;>
    rw [h₁] at e₁ <;> rw [h₂] at e₂ <;> simp [e₁, e₂]

/-- A childless `div` with class `sidebar` (empty text, no links). -/
def noiseExNode : Node := .elem (str "div") [] (str "sidebar") false []

/-- C7 counterexample: the also-cited enhanced
`NoiseDetector.calculateNoiseScore` does not satisfy the claimed formula —
on a childless `div` with class `sidebar` it yields `0.6` (class/id weight
0.6, no short-text signal), while the claimed weights give
`0.3 + 0.2 = 0.5`. -/
theorem noiseDetector_claim_false :
    NoiseDetector.calculateNoiseScore noiseExNode ≠ noiseScoreFormula noiseExNode ∧
    NoiseDetector.calculateNoiseScore noiseExNode = 0.6 ∧
    noiseScoreFormula noiseExNode = 0.5 := by
  have htag : NoiseDetector.elementTypes.any (· = noiseExNode.tagOf) = false := by decide
  have hcls : NoiseDetector.classNames.find?
      (fun pat => pat.any (containsSeq (combinedClassId noiseExNode)))
      = some [str "sidebar", str "aside", str "widget", str "ad", str "advertisement"] := by
    decide
  have hcls2 : ∃ x ∈ noisePatterns, ∃ y ∈ x,
      containsSeq (combinedClassId noiseExNode) y = true := by decide
  have htext : lowerStr (jsTrim (textContent noiseExNode)) = [] := by decide
  have hanch : countAnchors noiseExNode = 0 := by decide
  have hlead : noiseContentPatterns.find?
      (fun pat => pat.any (leadsWith ([] : Chars))) = none := by decide
  have hlead' : NoiseDetector.contentPatterns.find?
      (fun pat => pat.any (leadsWith ([] : Chars))) = none := by decide
  have hleadb : noiseContentPatterns.any
      (fun pat => pat.any (leadsWith ([] : Chars))) = false := by decide
  refine ⟨?_, ?_, ?_⟩ <;>
  · simp only [NoiseDetector.calculateNoiseScore, noiseScoreFormula, htag, hcls, htext,
      hanch, hlead, hlead', hleadb, List.length_nil]
    norm_num [hcls2]

/-! ## CandidateCollector: `findMainContentElement` (content-extractor.js)

`getTextContentLength` clones the element, removes
`script, style, nav, header, footer, aside` descendants, and takes
`textContent.trim().length`. The removal applies to descendants only
(`clone.querySelectorAll`), never to the clone root itself. The float
comparison `parentScore > bestParentScore * 1.2` is embedded as the exact
integer comparison `5 * parentScore > 6 * bestParentScore` over the two
natural-number lengths (`1.2 = 6/5` exactly); `hysteresis_iff` below records
the equivalence with the rational reading. -/

def contentSelectors : List Chars :=
  [str "article", str "main", str ".content", str ".post-content",
   str ".article-content", str ".entry-content", str "#content", str ".main-content"]

def nonContentTags : List Chars :=
  [str "script", str "style", str "nav", str "header", str "footer", str "aside"]

mutual
/-- Text of a node after the non-content subtrees are removed (a removed
element contributes nothing, its whole subtree included). -/
def filteredTextNode : Node → Chars
  | .text s => s
  | .elem t _ _ _ cs =>
      if nonContentTags.any (· = t) then [] else filteredTextChildren cs
def filteredTextChildren : List Node → Chars
  | [] => []
  | n :: ns => filteredTextNode n ++ filteredTextChildren ns
end

/-- `getTextContentLength(element)`; `0` for a null element. -/
def getTextContentLength : Option Node → Nat
  | none => 0
  | some (.text s) => (jsTrim s).length
  | some (.elem _ _ _ _ cs) => (jsTrim (filteredTextChildren cs)).length

/-- All elements of the document (root included), in document order, with
their ancestor chains. -/
def allElemsWithAnc (doc : Node) : List (Node × List Node) :=
  elemsWithAnc [] doc

/-- `document.querySelectorAll(sel)`, keeping ancestor chains. -/
def queryAllWithAnc (doc : Node) (sel : Chars) : List (Node × List Node) :=
  (allElemsWithAnc doc).filter fun q => selMatches sel q.1

/-- The inner loop of the selector pass: skip hidden elements, track the
highest `getTextContentLength` score. -/
def scanElems : List (Node × List Node) → (Option Node × Nat) → (Option Node × Nat)
  | [], acc => acc
  | (el, _) :: rest, (bel, bsc) =>
      if el.hiddenOf then scanElems rest (bel, bsc)
      else
        let score := getTextContentLength (some el)
        if score > bsc then scanElems rest (some el, score)
        else scanElems rest (bel, bsc)

/-- The selector pass with its early break: after each selector, if the best
score exceeds `1000`, the remaining selectors are skipped. -/
def scanSel (doc : Node) : List Chars → (Option Node × Nat) → (Option Node × Nat)
  | [], acc => acc
  | sel :: rest, acc =>
      let acc' := scanElems (queryAllWithAnc doc sel) acc
      if acc'.2 > 1000 then acc' else scanSel doc rest acc'

/-- The fallback seed search: the visible paragraph with the longest
`textContent.trim()` (first wins ties), with its score. -/
def bestPara (doc : Node) : Option (Node × List Node) × Nat :=
  ((allElemsWithAnc doc).filter fun q => q.1.tagOf = str "p").foldl
    (fun acc q =>
      if q.1.hiddenOf then acc
      else
        let len := (jsTrim (textContent q.1)).length
        if len > acc.2 then (some q, len) else acc)
    (none, 0)

/-- The ancestor walk of the density expansion: up to 3 steps beyond the
seed's parent, replacing the best ancestor only on
`parentScore > bestParentScore * 1.2`. -/
def walkUp : Nat → List Node → Node → Nat → Node
  | 0, _, bp, _ => bp
  | _ + 1, [], bp, _ => bp
  | i + 1, q :: rest, bp, bs =>
      let qs := getTextContentLength (some q)
      if 5 * qs > 6 * bs then walkUp i rest q qs else walkUp i rest bp bs

/-- The density-expansion result from the seed's ancestor chain: `none` when
the seed has no parent (`bestParent` stays null in the source). -/
def densityWalk (anc : List Node) : Option Node :=
  match anc with
  | [] => none
  | a :: rest => some (walkUp 3 rest a (getTextContentLength (some a)))

/-- `findMainContentElement()`: the selector pass with early break; when the
best score is below `500`, the density-expansion fallback over the best
qualifying paragraph (`bestParagraphScore > 100`). -/
def findMainContentElement (doc : Node) : Option Node :=
  let acc := scanSel doc contentSelectors (none, 0)
  if acc.2 < 500 then
    let pb := bestPara doc
    match pb.1 with
    | some (_, anc) => if pb.2 > 100 then densityWalk anc else acc.1
    | none => acc.1
  else acc.1

/-- The claimed reading of the float hysteresis comparison: an ancestor
replaces the best one exactly when its length exceeds the best by more
than 20%. -/
theorem hysteresis_iff (a b : Nat) : (5 * a > 6 * b) ↔ ((a : ℚ) > (b : ℚ) * 1.2) := by
  rw [gt_iff_lt, gt_iff_lt]
  constructor
  · intro h
    have h' : (6 * b : ℚ) < 5 * a := by exact_mod_cast h
    nlinarith
  · intro h
    have h' : (6 * b : ℚ) < (5 * a : ℚ) := by nlinarith
    exact_mod_cast h'

/-! ### The specification-side decomposition of `findMainContentElement` -/

/-- The ordered prefix of selectors the scan actually visits: it extends
past a selector only while the accumulated best score is at most `1000`. -/
def selsUpToBreak (doc : Node) : List Chars → (Option Node × Nat) → List Chars
  | [], _ => []
  | sel :: rest, acc =>
      let acc' := scanElems (queryAllWithAnc doc sel) acc
      sel :: (if acc'.2 > 1000 then [] else selsUpToBreak doc rest acc')

/-- The selector pass without any early break. -/
def scanAll (doc : Node) : List Chars → (Option Node × Nat) → (Option Node × Nat)
  | [], acc => acc
  | sel :: rest, acc => scanAll doc rest (scanElems (queryAllWithAnc doc sel) acc)

/-- The expansion seed: the best visible paragraph, provided its trimmed
text length exceeds `100` characters. -/
def qualifyingSeed (doc : Node) : Option (Node × List Node) :=
  match bestPara doc with
  | (some q, len) => if 100 < len then some q else none
  | (none, _) => none

/-- One hysteresis step of the ancestor walk. -/
def hystStep (acc : Node × Nat) (q : Node) : Node × Nat :=
  let qs := getTextContentLength (some q)
  if 5 * qs > 6 * acc.2 then (q, qs) else acc

/-- `findMainContentElement` as the claim describes it: scan only the
selector prefix up to the first break (score above `1000`); run the
density-expansion fallback exactly when the best score is below `500`; seed
it with the qualifying paragraph; fold the hysteresis step over at most 3
ancestor levels beyond the parent. -/
def findMainSpec (doc : Node) : Option Node :=
  let acc := scanAll doc (selsUpToBreak doc contentSelectors (none, 0)) (none, 0)
  if acc.2 < 500 then
    match qualifyingSeed doc with
    | some (_, anc) =>
        match anc with
        | [] => none
        | a :: rest =>
            some (((rest.take 3).foldl hystStep (a, getTextContentLength (some a))).1)
    | none => acc.1
  else acc.1

theorem scanSel_eq_scanAll_upToBreak (doc : Node) (sels : List Chars) :
    ∀ acc, scanSel doc sels acc = scanAll doc (selsUpToBreak doc sels acc) acc := by
  induction sels with
  | nil => intro acc; rfl
  | cons sel rest ih =>
      intro acc
      simp only [scanSel, selsUpToBreak, scanAll]
      by_cases h : (scanElems (queryAllWithAnc doc sel) acc).2 > 1000
      · simp only [if_pos h, scanAll]
      · simp only [if_neg h]
        exact ih _

theorem walkUp_eq_foldl (n : Nat) (rest : List Node) :
    ∀ bp bs, walkUp n rest bp bs = ((rest.take n).foldl hystStep (bp, bs)).1 := by
  induction n generalizing rest with
  | zero => intro bp bs; simp [walkUp]
  | succ n ih =>
      intro bp bs
      cases rest with
      | nil => simp [walkUp]
      | cons q rest' =>
          simp only [walkUp, List.take_succ_cons, List.foldl_cons, hystStep]
          by_cases h : 5 * getTextContentLength (some q) > 6 * bs
          · simp only [if_pos h]; exact ih rest' q _
          · simp only [if_neg h]; exact ih rest' bp bs

theorem findMain_eq_spec (doc : Node) :
    findMainContentElement doc = findMainSpec doc := by
  simp only [findMainContentElement, findMainSpec, qualifyingSeed,
    ← scanSel_eq_scanAll_upToBreak]
  cases hb : bestPara doc with
  | mk bp len =>
      cases bp with
      | none => rfl
      | some q =>
          cases q with
          | mk p anc =>
              by_cases h : 100 < len
              · simp only [if_pos h, gt_iff_lt]
                cases anc with
                | nil => simp [densityWalk]
                | cons a rest =>
                    simp [densityWalk, walkUp_eq_foldl]
              · simp only [if_neg h, gt_iff_lt]

theorem scanSel_break_ignores_rest (doc : Node) (pre : List Chars) :
    ∀ post acc, acc.2 ≤ 1000 → 1000 < (scanSel doc pre acc).2 →
      scanSel doc (pre ++ post) acc = scanSel doc pre acc := by
  induction pre with
  | nil =>
      intro post acc hle hgt
      exact absurd (lt_of_lt_of_le hgt hle) (lt_irrefl _)
  | cons sel rest ih =>
      intro post acc hle hgt
      simp only [List.cons_append, scanSel]
      by_cases h : (scanElems (queryAllWithAnc doc sel) acc).2 > 1000
      · simp only [if_pos h]
      · simp only [if_neg h]
        apply ih post _ (le_of_not_lt h)
        have := hgt
        simp only [scanSel, if_neg h] at this
        exact this

/-- Invariant of the `bestPara` fold: whenever a paragraph is selected, it
is one of the document's `p` elements, its recorded score is its trimmed
text length, and it is visible. -/
theorem bestPara_inv (doc : Node) :
    ∀ p anc, (bestPara doc).1 = some (p, anc) →
      (p, anc) ∈ (allElemsWithAnc doc).filter (fun q => q.1.tagOf = str "p") ∧
      (bestPara doc).2 = (jsTrim (textContent p)).length ∧ p.hiddenOf = false := by
  unfold bestPara
  generalize hl : ((allElemsWithAnc doc).filter fun q => q.1.tagOf = str "p") = l
  have key : ∀ (m : List (Node × List Node)), (∀ x ∈ m, x ∈ l) →
      ∀ (acc : Option (Node × List Node) × Nat),
      (∀ p anc, acc.1 = some (p, anc) → (p, anc) ∈ l ∧
        acc.2 = (jsTrim (textContent p)).length ∧ p.hiddenOf = false) →
      ∀ p anc, (m.foldl
          (fun acc q =>
            if q.1.hiddenOf then acc
            else
              let len := (jsTrim (textContent q.1)).length
              if len > acc.2 then (some q, len) else acc) acc).1 = some (p, anc) →
        (p, anc) ∈ l ∧
        (m.foldl
          (fun acc q =>
            if q.1.hiddenOf then acc
            else
              let len := (jsTrim (textContent q.1)).length
              if len > acc.2 then (some q, len) else acc) acc).2
            = (jsTrim (textContent p)).length ∧ p.hiddenOf = false := by
    intro m
    induction m with
    | nil => intro _ acc hacc p anc h; exact hacc p anc h
    | cons q rest ih =>
        intro hsub acc hacc p anc
        simp only [List.foldl_cons]
        by_cases hq : q.1.hiddenOf
        · simp only [if_pos hq]
          exact ih (fun x hx => hsub x (List.mem_cons_of_mem _ hx)) acc hacc p anc
        · simp only [if_neg hq]
          by_cases hlen : (jsTrim (textContent q.1)).length > acc.2
          · simp only [if_pos hlen]
            refine ih (fun x hx => hsub x (List.mem_cons_of_mem _ hx)) _ ?_ p anc
            intro p' anc' h'
            cases q with
            | mk qn qanc =>
                simp only [Option.some.injEq, Prod.mk.injEq] at h'
                obtain ⟨hq1, hq2⟩ := h'
                subst hq1
                subst hq2
                exact ⟨hsub (qn, qanc) (List.mem_cons_self _ _), rfl, by simpa using hq⟩
          · simp only [if_neg hlen]
            exact ih (fun x hx => hsub x (List.mem_cons_of_mem _ hx)) acc hacc p anc
  intro p anc h
  exact key l (fun x hx => hx) (none, 0) (by intro p' anc' h'; cases h') p anc h

/-- C6. The candidate-selection thresholds: (1) `findMainContentElement`
equals its specification-side decomposition — the scan visits only the
selector prefix up to the first score above `1000`, the density-expansion
fallback runs exactly when the best selector score is below `500`, and the
expansion folds the more-than-20% hysteresis step over at most 3 ancestor
levels beyond the seed's parent; (2) once the accumulated best score
exceeds `1000` after some selector, the remaining selectors never change the
result; (3) an expansion seed is always a visible paragraph of at least 100
characters of trimmed text. -/
theorem findMainContent_thresholds (doc : Node) :
    findMainContentElement doc = findMainSpec doc ∧
    (∀ pre post acc, acc.2 ≤ 1000 → 1000 < (scanSel doc pre acc).2 →
      scanSel doc (pre ++ post) acc = scanSel doc pre acc) ∧
    (∀ p anc, qualifyingSeed doc = some (p, anc) →
      100 ≤ (jsTrim (textContent p)).length ∧ p.hiddenOf = false) := by
  refine ⟨findMain_eq_spec doc, fun pre post acc h1 h2 =>
    scanSel_break_ignores_rest doc pre post acc h1 h2, ?_⟩
  intro p anc h
  unfold qualifyingSeed at h
  cases hb : bestPara doc with
  | mk bp len =>
      rw [hb] at h
      cases bp with
      | none => exact absurd h (by simp)
      | some q =>
          have h' : (if 100 < len then some q else none) = some (p, anc) := h
          by_cases hl : 100 < len
          · rw [if_pos hl] at h'
            cases h'
            have hinv := bestPara_inv doc p anc (by rw [hb])
            rw [hb] at hinv
            obtain ⟨_, h1, h2⟩ := hinv
            exact ⟨by omega, h2⟩
          · rw [if_neg hl] at h'
            cases h' 

/-- A 1100-character paragraph inside an `article` inside the body. -/
def exC6text : Chars := List.replicate 1100 'a'

def exC6p : Node := .elem (str "p") [] [] false [.text exC6text]

def exC6article : Node := .elem (str "article") [] [] false [exC6p]

def exC6doc : Node := .elem (str "body") [] [] false [exC6article]

/-- Witness for C6 at a concrete document: the `article` match scores 1100,
so the scan breaks after the first selector and the remaining selectors are
ignored; the qualifying seed is the 1100-character paragraph. -/
theorem findMainContent_thresholds_witness :
    findMainContentElement exC6doc = findMainSpec exC6doc ∧
    scanSel exC6doc ([str "article"] ++ [str "main"]) (none, 0)
      = scanSel exC6doc [str "article"] (none, 0) ∧
    100 ≤ (jsTrim (textContent exC6p)).length :=
  have h := findMainContent_thresholds exC6doc
  ⟨h.1,
   h.2.1 [str "article"] [str "main"] (none, 0) (by decide) (by decide),
   (h.2.2 exC6p [exC6article, exC6doc] (by decide)).1⟩

/-! ## A backtracking regex matcher with JavaScript semantics

`filterMarkdown` (content-extractor.js) is driven by `String.replace` with
`gi`-flagged regexes. The matcher below reproduces the relevant JavaScript
semantics: ordered alternation, greedy `?`/`*`/`{m,n}`, lazy `*?`, zero-width
lookahead, `^`/`$` without the `m` flag (absolute start/end of input), and
leftmost preference. A match state is the absolute position plus the
remaining input; `matchRE` returns all candidate end states in backtracking
preference order, so the head of the list is the end of the JavaScript
match. Repetition of composite subpatterns carries fuel (one unit per
iteration); every iteration must consume input, so fuel `length + 1` is
never exhausted. -/

structure MPos where
  pos : Nat
  rest : Chars
deriving DecidableEq

inductive RE where
  | eps : RE
  | cls : (Char → Bool) → RE
  | seq : RE → RE → RE
  | alt : RE → RE → RE
  | opt : RE → RE
  | starCls : (Char → Bool) → RE
  | lazyStarCls : (Char → Bool) → RE
  | star : RE → RE
  | look : RE → RE
  | bol : RE
  | eol : RE

/-- End states of a greedy character-class star, longest first. -/
def greedyEnds (f : Char → Bool) : Nat → Chars → List MPos
  | i, [] => [⟨i, []⟩]
  | i, c :: r =>
      if f c then greedyEnds f (i + 1) r ++ [⟨i, c :: r⟩] else [⟨i, c :: r⟩]

/-- End states of a lazy character-class star, shortest first. -/
def lazyEnds (f : Char → Bool) : Nat → Chars → List MPos
  | i, [] => [⟨i, []⟩]
  | i, c :: r => ⟨i, c :: r⟩ :: (if f c then lazyEnds f (i + 1) r else [])

/-- One level of the matcher; `recur` resumes composite-star iteration at
the next fuel level. -/
def matchAux (recur : RE → MPos → List MPos) : RE → MPos → List MPos
  | .eps, p => [p]
  | .cls f, p =>
      match p.rest with
      | [] => []
      | c :: r => if f c then [⟨p.pos + 1, r⟩] else []
  | .seq a b, p => (matchAux recur a p).flatMap (matchAux recur b)
  | .alt a b, p => matchAux recur a p ++ matchAux recur b p
  | .opt a, p => matchAux recur a p ++ [p]
  | .starCls f, p => greedyEnds f p.pos p.rest
  | .lazyStarCls f, p => lazyEnds f p.pos p.rest
  | .star a, p =>
      ((matchAux recur a p).filter (fun q => p.pos < q.pos)).flatMap
        (fun q => recur (.star a) q) ++ [p]
  | .look a, p => if (matchAux recur a p).isEmpty then [] else [p]
  | .bol, p => if p.pos = 0 then [p] else []
  | .eol, p => if p.rest.isEmpty then [p] else []

def matchRE : Nat → RE → MPos → List MPos
  | 0, r, p => matchAux (fun _ _ => []) r p
  | fuel + 1, r, p => matchAux (matchRE fuel) r p

/-- `content.replace(re, rep)` with the `g` flag: scan the original input
left to right; at each position take the backtracker's preferred match, emit
the replacement, and continue right after the match (JavaScript advances a
single character past an empty match, emitting the skipped character). -/
def replaceScan (re : RE) (rep : Chars) : Nat → Nat → Chars → Chars
  | 0, _, rest => rest
  | fuel + 1, i, rest =>
      match matchRE (rest.length + 1) re ⟨i, rest⟩ with
      | q :: _ =>
          if q.pos = i then
            rep ++ (match rest with
              | [] => []
              | c :: r => c :: replaceScan re rep fuel (i + 1) r)
          else rep ++ replaceScan re rep fuel q.pos q.rest
      | [] =>
          match rest with
          | [] => []
          | c :: r => c :: replaceScan re rep fuel (i + 1) r

def replaceAll (re : RE) (rep s : Chars) : Chars :=
  replaceScan re rep (s.length + 1) 0 s

/-! ### Pattern-building helpers (the `i` flag makes literals
case-insensitive) -/

def ciChar (a : Char) : RE := .cls (fun c => c.toLower = a.toLower)

def lit (s : String) : RE := s.data.foldr (fun c r => RE.seq (ciChar c) r) .eps

def altL : List RE → RE
  | [] => .eps
  | r :: rs => rs.foldl RE.alt r

def repExact (r : RE) : Nat → RE
  | 0 => .eps
  | n + 1 => .seq r (repExact r n)

def optChain (r : RE) : Nat → RE
  | 0 => .eps
  | n + 1 => .opt (.seq r (optChain r n))

/-- `r{m,n}`, greedy. -/
def repRange (r : RE) (m n : Nat) : RE := .seq (repExact r m) (optChain r (n - m))

/-- `r{m,}`, greedy. -/
def repAtLeast (r : RE) (m : Nat) : RE := .seq (repExact r m) (.star r)

/-- `[c]{m,n}` for a character class, greedy. -/
def clsRange (f : Char → Bool) (m n : Nat) : RE := .seq (repExact (.cls f) m) (optChain (.cls f) (n - m))

/-- `[c]+`. -/
def plusCls (f : Char → Bool) : RE := .seq (.cls f) (.starCls f)

def notNl (c : Char) : Bool := c ≠ '\n'

def isDigit (c : Char) : Bool := '0' ≤ c && c ≤ '9'

def apos : Char := Char.ofNat 39

/-- `['’]` as used in the source keyword lists. -/
def aposCls : RE := .cls (fun c => c = apos || c = '’')

/-! ### The regex literals of `filterMarkdown`, translated -/

/-- `sectionBoundary = (?=(?:\n\n|\n|^)#{1,2} |\n\n---\n|\n\n\*\*\*\n|$)`. -/
def sectionBoundary : RE :=
  .look (altL [
    .seq (altL [lit "\n\n", lit "\n", .bol]) (.seq (clsRange (· = '#') 1 2) (lit " ")),
    lit "\n\n---\n",
    lit "\n\n***\n",
    .eol])

/-- `(?:^|\n{1,2})(?:#{1,3}|\*\*)?\s*` — the shared lead-in of the keyword
patterns. -/
def patLeadIn : RE :=
  .seq (altL [.bol, clsRange (· = '\n') 1 2])
    (.seq (.opt (altL [clsRange (· = '#') 1 3, lit "**"])) (.starCls jsWs))

/-- `\s*:?\s*\n[\s\S]*?` + section boundary — the shared tail. -/
def patTail : RE :=
  .seq (.starCls jsWs)
    (.seq (.opt (ciChar ':'))
      (.seq (.starCls jsWs)
        (.seq (ciChar '\n')
          (.seq (.lazyStarCls (fun _ => true)) sectionBoundary))))

/-- The recommendation-section keywords of default pattern 1. -/
def kwRecommend : RE := altL [
  lit "Read More", lit "Read Next", lit "Also Read",
  .seq (lit "Related") (.opt (altL [lit " Articles", lit " Content"])),
  lit "Further Reading",
  .seq (lit "More") (.seq (plusCls jsWs)
    (.seq (lit "from") (.seq (plusCls jsWs) (plusCls notNl)))),
  .seq (lit "Don") (.seq aposCls (lit "t Miss")),
  lit "Up Next", lit "Recommended",
  .seq (lit "Trending") (.opt (.seq (plusCls jsWs)
    (.seq (lit "in") (.seq (plusCls jsWs) (plusCls notNl))))),
  lit "Popular", lit "In Case You Missed It", lit "You Might Also Like",
  lit "Continue Reading", lit "Related Stories", lit "More Stories",
  lit "Latest News",
  .seq (lit "Editor") (.seq aposCls (lit "s Picks")),
  lit "What to Read Next"]

/-- The social/newsletter keywords of default pattern 2. -/
def kwSocial : RE := altL [
  lit "Share this article", lit "Follow us on", lit "Connect with us",
  lit "Join our newsletter", lit "Sign up for updates", lit "Enter your email",
  lit "Subscribe to our newsletter", lit "Get the latest updates",
  .seq (lit "Don") (.seq aposCls (lit "t miss out"))]

/-- The comment-section keywords of default pattern 3. -/
def kwComments : RE := altL [
  lit "Comments", lit "Discussions", lit "Leave a Reply",
  lit "Add Your Comment", lit "Reader Comments"]

/-- The author-bio keywords of default pattern 4:
`About the Author|Author Bio|By [^\n]{5,50}`. -/
def kwAuthor : RE := altL [
  lit "About the Author", lit "Author Bio",
  .seq (lit "By ") (clsRange notNl 5 50)]

/-- The tags/categories keywords of default pattern 5. -/
def kwTags : RE := altL [lit "Tags", lit "Categories", lit "Filed Under"]

/-- `[^\n]+\n` — one non-empty line, for the author-bio tail. -/
def lineRe : RE := .seq (plusCls notNl) (ciChar '\n')

/-- `\s*[-*]\s*\[[^\]]+\]\([^)]+\)\s*` — one markdown link-list item. -/
def linkItem : RE :=
  .seq (.starCls jsWs)
    (.seq (.cls (fun c => c = '-' || c = '*'))
      (.seq (.starCls jsWs)
        (.seq (ciChar '[')
          (.seq (plusCls (· ≠ ']'))
            (.seq (ciChar ']')
              (.seq (ciChar '(')
                (.seq (plusCls (fun c => c ≠ ')'))
                  (.seq (ciChar ')') (.starCls jsWs)))))))))

/-- The seven default patterns, in source order. -/
def defaultPatterns : List RE := [
  .seq patLeadIn (.seq kwRecommend patTail),
  .seq patLeadIn (.seq kwSocial patTail),
  .seq patLeadIn (.seq kwComments patTail),
  .seq patLeadIn (.seq kwAuthor
    (.seq (.starCls jsWs)
      (.seq (.opt (ciChar ':'))
        (.seq (.starCls jsWs)
          (.seq (ciChar '\n')
            (.seq (repRange lineRe 1 5) sectionBoundary)))))),
  .seq patLeadIn (.seq kwTags patTail),
  .seq (ciChar '\n') (.seq (repAtLeast linkItem 3) (ciChar '\n')),
  .seq (lit "\n\n")
    (.seq (altL [
        lit "**Note**", lit "Disclaimer", lit "Copyright",
        lit "All rights reserved", lit "Privacy Policy", lit "Terms of Use",
        .seq (plusCls notNl) (.seq (lit " © ") (repExact (.cls isDigit) 4)),
        .seq (lit "© ") (.seq (repExact (.cls isDigit) 4)
          (.seq (ciChar ' ') (plusCls notNl)))])
      (.seq (.lazyStarCls (fun _ => true)) .eol))]

/-- The keyword alternation shared by the nested-`##` pass and the
standalone-heading pass. -/
def kwNested : RE := altL [
  .seq (lit "Related") (.opt (.seq (plusCls jsWs) (lit "Content"))),
  .seq (lit "Editor") (.seq aposCls (.seq (lit "s") (.seq (plusCls jsWs) (lit "Picks")))),
  .seq (lit "Trending") (.opt (.seq (plusCls jsWs)
    (.seq (lit "in") (.seq (plusCls jsWs) (plusCls notNl))))),
  .seq (lit "More") (.seq (plusCls jsWs)
    (.seq (lit "in") (.seq (plusCls jsWs) (plusCls notNl)))),
  .seq (lit "More") (.seq (plusCls jsWs)
    (.seq (lit "from") (.seq (plusCls jsWs) (plusCls notNl)))),
  lit "Recommended", lit "Popular"]

/-- The nested-section pass:
`(?:^|\n)##\s*(?:…)[^\n]*\n[\s\S]*?(?=(?:\n#{1,2}\s|$))`, replaced by `\n`. -/
def reNestedH2 : RE :=
  .seq (altL [.bol, ciChar '\n'])
    (.seq (lit "##")
      (.seq (.starCls jsWs)
        (.seq kwNested
          (.seq (.starCls notNl)
            (.seq (ciChar '\n')
              (.seq (.lazyStarCls (fun _ => true))
                (.look (altL [
                  .seq (ciChar '\n') (.seq (clsRange (· = '#') 1 2) (.cls jsWs)),
                  .eol]))))))))

/-- The standalone-heading pass:
`(?:^|\n)(?:#{1,4})\s*(?:…)\s*(?=\n(?:#{1,6}\s|$))`, replaced by `\n` and
repeated to a fixed point. -/
def reStandalone : RE :=
  .seq (altL [.bol, ciChar '\n'])
    (.seq (clsRange (· = '#') 1 4)
      (.seq (.starCls jsWs)
        (.seq kwNested
          (.seq (.starCls jsWs)
            (.look (.seq (ciChar '\n')
              (altL [.seq (clsRange (· = '#') 1 6) (.cls jsWs), .eol])))))))

/-- `\n{3,}`. -/
def reNewlines3 : RE := .seq (repExact (.cls (· = '\n')) 3) (.starCls (· = '\n'))

/-- `(\n\s*){2,}`. -/
def reNlWsRuns : RE := repAtLeast (.seq (ciChar '\n') (.starCls jsWs)) 2

/-! ### `filterMarkdown` -/

/-- JavaScript truthiness of the `customFilters` argument: `null` and the
empty string are falsy. -/
def jsTruthy : Option Chars → Bool
  | none => false
  | some s => !s.isEmpty

/-- The custom-filter parse:
`customFilters.split('\n').filter(line => line.trim() &&
!line.trim().startsWith('#')).map(line => line.trim())`. -/
def parseCustomPatterns (cf : Chars) : List Chars :=
  (((splitOn '\n' cf).filter fun line =>
      !(jsTrim line).isEmpty && !leadsWith (jsTrim line) (str "#")).map jsTrim)

def regexMeta (c : Char) : Bool :=
  (str "\\^$.*+?()[]\x7b\x7d|").any (· = c)

/-- A custom filter line is compiled by the JavaScript `RegExp` engine with
flags `gi`. The model covers the literal-text fragment (no regex
metacharacters), which a user keyword list consists of; a line containing
metacharacters is not modeled and is treated like the source's `catch`
branch, which skips a pattern that fails to compile. -/
def compileCustom (pattern : Chars) : Option RE :=
  if pattern.isEmpty || pattern.any regexMeta then none
  else some (pattern.foldr (fun c r => RE.seq (ciChar c) r) .eps)

/-- The fixed-point loop over the standalone-heading pass (`do … while` on
inequality; every rewrite strictly shortens the text, so the input length
bounds the iteration count). -/
def fixLoopStandalone : Nat → Chars → Chars
  | 0, s => s
  | fuel + 1, s =>
      let s' := replaceAll reStandalone (str "\n") s
      if s' = s then s else fixLoopStandalone fuel s'

/-- `filterMarkdown(markdown, customFilters)`: choose the pattern list
(defaults when `customFilters` is falsy), apply each pattern with
replacement `"\n\n"`, run the nested-`##` pass, the standalone-heading pass
to a fixed point, the two whitespace-collapsing passes, then
`trim() + '\n'`. -/
def filterMarkdown (markdown : Chars) (customFilters : Option Chars) : Chars :=
  let patterns : List RE :=
    if jsTruthy customFilters then
      (parseCustomPatterns (customFilters.getD [])).filterMap compileCustom
    else defaultPatterns
  let content := patterns.foldl (fun c re => replaceAll re (str "\n\n") c) markdown
  let content := replaceAll reNestedH2 (str "\n") content
  let content := fixLoopStandalone (content.length + 1) content
  let content := replaceAll reNewlines3 (str "\n\n") content
  let content := replaceAll reNlWsRuns (str "\n\n") content
  jsTrim content ++ ['\n']

/-! ## SemanticChunker: `chunkDomToSemanticBlocks` (content-extractor.js)

`el.innerText` is modeled as the subtree's text content (`textContent`);
the source uses the two interchangeably for inline text, and every use here
is followed by the same inline cleaning. -/

inductive Chunk where
  | heading (level : Nat) (text : Chars) (breadcrumb : List Chars) : Chunk
  | paragraph (text : Chars) : Chunk
  | list (ordered : Bool) (items : List Chars) : Chunk
  | code (lang : Chars) (code : Chars) : Chunk
  | blockquote (text : Chars) : Chunk
  | table (rows : List (List Chars)) : Chunk
deriving DecidableEq

/-- `line.replace(/\s+$/, '')` — strip one trailing whitespace run. -/
def dropTrailingWs (s : Chars) : Chars := (s.reverse.dropWhile jsWs).reverse

def isSpc (c : Char) : Bool := c = ' ' || c = Char.ofNat 160

/-- `[  ]{2,}`. -/
def reSpaces2 : RE := .seq (.cls isSpc) (.seq (.cls isSpc) (.starCls isSpc))

/-- `cleanInline(text)`: strip `\r`, tabs to spaces, collapse 3+ newlines to
2, strip trailing whitespace per line, collapse runs of 2+ spaces/nbsp to
one space, trim. -/
def cleanInline (text : Chars) : Chars :=
  let t := (text.filter (· ≠ '\r')).map fun c => if c = '\t' then ' ' else c
  let t := replaceAll reNewlines3 (str "\n\n") t
  let t := joinSep '\n' ((splitOn '\n' t).map dropTrailingWs)
  let t := replaceAll reSpaces2 (str " ") t
  jsTrim t

/-- `getCodeText(codeEl)`: the raw text with a trailing whitespace run
stripped (`.replace(/\s+$/g, '')`); internal whitespace is preserved. -/
def getCodeText (codeEl : Node) : Chars := dropTrailingWs (textContent codeEl)

def langClass (c : Char) : Bool :=
  ('a' ≤ c.toLower && c.toLower ≤ 'z') || isDigit c || c = '+' || c = '#'

def isWordCh (c : Char) : Bool :=
  ('a' ≤ c.toLower && c.toLower ≤ 'z') || isDigit c || c = '_'

/-- First pass of `detectCodeLanguage`: the leftmost match of
`/(?:language|lang)-([a-z0-9+#]+)/i`, returning the captured group in lower
case. (`language-` and `lang-` cannot both match at one position, so the
alternation order is immaterial.) -/
def detectLang1 : Chars → Option Chars
  | [] => none
  | c :: rest =>
      if leadsWith (lowerStr (c :: rest)) (str "language-") then
        let cap := ((c :: rest).drop 9).takeWhile langClass
        if cap.isEmpty then detectLang1 rest else some (lowerStr cap)
      else if leadsWith (lowerStr (c :: rest)) (str "lang-") then
        let cap := ((c :: rest).drop 5).takeWhile langClass
        if cap.isEmpty then detectLang1 rest else some (lowerStr cap)
      else detectLang1 rest

/-- Greedy-then-shrink for the trailing `\b` of the fallback pattern: the
longest non-empty prefix of the captured run whose final character is at a
word boundary with what follows. -/
def shrinkToWordB : Nat → Chars → Option Char → Option Chars
  | 0, _, _ => none
  | _ + 1, [], _ => none
  | fuel + 1, cap, next =>
      let e := cap.getLast?.getD ' '
      let wNext := match next with | some f => isWordCh f | none => false
      if isWordCh e ≠ wNext then some cap
      else shrinkToWordB fuel cap.dropLast (some e)

/-- Second pass of `detectCodeLanguage`: the leftmost match of
`/\b([a-z0-9+#]+)\b/i`. `prev` is the character before the current
position (word-boundary context). -/
def detectLang2 (prev : Option Char) : Chars → Option Chars
  | [] => none
  | c :: rest =>
      let wPrev := match prev with | some p => isWordCh p | none => false
      if wPrev ≠ isWordCh c && langClass c then
        let cap := (c :: rest).takeWhile langClass
        match shrinkToWordB (cap.length + 1) cap (((c :: rest).drop cap.length).head?) with
        | some r => some (lowerStr r)
        | none => detectLang2 (some c) rest
      else detectLang2 (some c) rest

/-- `detectCodeLanguage(codeEl)` over the element's `class` attribute. -/
def detectCodeLanguage (classAttr : Chars) : Chars :=
  match detectLang1 classAttr with
  | some l => l
  | none =>
      match detectLang2 none classAttr with
      | some l => l
      | none => []

def Node.isElem : Node → Bool
  | .text _ => false
  | .elem _ _ _ _ _ => true

/-- `element.querySelector('code')`: first descendant `code` element. -/
def findCodeEl (el : Node) : Option Node :=
  (descendantElems el).find? fun n => n.tagOf = str "code"

def blockTags : List Chars :=
  [str "p", str "div", str "section", str "article", str "ul", str "ol",
   str "table", str "pre", str "blockquote",
   str "h1", str "h2", str "h3", str "h4", str "h5", str "h6"]

/-- `hasBlockChildren(el)`: some direct element child has a block tag. -/
def hasBlockChildren (el : Node) : Bool :=
  el.childrenOf.any fun c => blockTags.any (· = c.tagOf)

def chunkRejectTags : List Chars :=
  [str "script", str "style", str "nav", str "header", str "footer", str "aside"]

/-- `getBreadcrumb(el)`: heading ancestors with non-empty text, tagged
`H{level}:{text}`, outermost first (the source prepends while climbing). -/
def getBreadcrumb (anc : List Node) : List Chars :=
  (anc.filterMap fun n =>
    if isHeadingTag n.tagOf then
      let t := cleanInline (textContent n)
      if t.isEmpty then none
      else some (str "H" ++ (Nat.repr (headingLevel n.tagOf)).data ++ ':' :: t)
    else none).reverse

/-- The per-element dispatch of the chunking walker. -/
def dispatchChunk (anc : List Node) (el : Node) : List Chunk :=
  let t := el.tagOf
  if isHeadingTag t then
    [.heading (headingLevel t) (cleanInline (textContent el)) (getBreadcrumb anc)]
  else if t = str "pre" then
    let codeEl := (findCodeEl el).getD el
    let codeText := getCodeText codeEl
    if (jsTrim codeText).isEmpty then []
    else [.code (detectCodeLanguage codeEl.classOf) codeText]
  else if t = str "blockquote" then
    let text := cleanInline (textContent el)
    if text.isEmpty then [] else [.blockquote text]
  else if t = str "ul" || t = str "ol" then
    let items := ((el.childrenOf.filter fun n => n.tagOf = str "li").map
      fun li => jsTrim (cleanInline (textContent li))).filter fun s => !s.isEmpty
    if items.isEmpty then [] else [.list (t = str "ol") items]
  else if t = str "table" then
    let rows := ((descendantElems el).filter fun n => n.tagOf = str "tr").map
      fun tr => (tr.childrenOf.filter Node.isElem).map
        fun td => jsTrim (cleanInline (textContent td))
    if rows.isEmpty then [] else [.table rows]
  else if t = str "p" || t = str "div" || t = str "section" || t = str "article" then
    if hasBlockChildren el then []
    else
      let text := jsTrim (cleanInline (textContent el))
      if text.isEmpty then [] else [.paragraph text]
  else []

mutual
/-- The chunking walk: a rejected element (non-content tag or hidden) is
skipped with its whole subtree; otherwise the element is dispatched and the
walk descends (the source's `continue` skips only the dispatch, never the
subtree). -/
def chunkNode (anc : List Node) : Node → List Chunk
  | .text _ => []
  | .elem t i c h cs =>
      if chunkRejectTags.any (· = t) || h then []
      else
        dispatchChunk anc (Node.elem t i c h cs) ++
          chunkList (Node.elem t i c h cs :: anc) cs
def chunkList (anc : List Node) : List Node → List Chunk
  | [] => []
  | n :: ns => chunkNode anc n ++ chunkList anc ns
end

/-- `chunkDomToSemanticBlocks(root)`: the tree walker starts below the
root. -/
def chunkDomToSemanticBlocks (root : Node) : List Chunk :=
  chunkList [] root.childrenOf

/-! ### C10: chunk non-degeneracy -/

/-- A non-heading chunk is non-degenerate: non-empty paragraph/blockquote
text, code with a non-whitespace character, a list with at least one
non-empty item (in fact all items non-empty), a table with at least one
row. Heading chunks alone may carry empty text. -/
def Nondegen : Chunk → Prop
  | .heading _ _ _ => True
  | .paragraph t => t ≠ []
  | .blockquote t => t ≠ []
  | .code _ c => ∃ ch ∈ c, jsWs ch = false
  | .list _ items => items ≠ [] ∧ ∀ i ∈ items, i ≠ []
  | .table rows => rows ≠ []

theorem exists_nonWs_of_jsTrim_ne {s : Chars} (h : ¬(jsTrim s).isEmpty) :
    ∃ ch ∈ s, jsWs ch = false := by
  by_contra hc
  push_neg at hc
  apply h
  have hall : ∀ ch ∈ s, jsWs ch = true := by
    intro ch hm
    have := hc ch hm
    revert this
    cases jsWs ch <;> simp
  unfold jsTrim
  rw [List.dropWhile_eq_nil_iff.mpr hall]
  simp

theorem dispatchChunk_nondegen (anc : List Node) (el : Node) :
    ∀ c ∈ dispatchChunk anc el, Nondegen c := by
  intro c hc
  unfold dispatchChunk at hc
  by_cases hC1 : isHeadingTag el.tagOf = true
  · rw [if_pos hC1] at hc
    simp only [List.mem_singleton] at hc
    subst hc; trivial
  · rw [if_neg hC1] at hc
    by_cases hC2 : el.tagOf = str "pre"
    · rw [if_pos hC2] at hc
      by_cases hC3 : (jsTrim (getCodeText ((findCodeEl el).getD el))).isEmpty = true
      · rw [if_pos hC3] at hc; cases hc
      · rw [if_neg hC3] at hc
        simp only [List.mem_singleton] at hc
        subst hc
        exact exists_nonWs_of_jsTrim_ne hC3
    · rw [if_neg hC2] at hc
      by_cases hC4 : el.tagOf = str "blockquote"
      · rw [if_pos hC4] at hc
        by_cases hC5 : (cleanInline (textContent el)).isEmpty = true
        · rw [if_pos hC5] at hc; cases hc
        · rw [if_neg hC5] at hc
          simp only [List.mem_singleton] at hc
          subst hc
          show _ ≠ []
          intro hemp
          exact hC5 (by rw [hemp]; rfl)
      · rw [if_neg hC4] at hc
        by_cases hC6 : (el.tagOf = str "ul" || el.tagOf = str "ol") = true
        · rw [if_pos hC6] at hc
          by_cases hC7 : (((el.childrenOf.filter fun n => n.tagOf = str "li").map
              fun li => jsTrim (cleanInline (textContent li))).filter
                fun s => !s.isEmpty).isEmpty = true
          · rw [if_pos hC7] at hc; cases hc
          · rw [if_neg hC7] at hc
            simp only [List.mem_singleton] at hc
            subst hc
            refine ⟨fun hemp => hC7 (by rw [hemp]; rfl), ?_⟩
            intro i hi hemp
            have hf := List.of_mem_filter hi
            rw [hemp] at hf
            simp at hf
        · rw [if_neg hC6] at hc
          by_cases hC8 : el.tagOf = str "table"
          · rw [if_pos hC8] at hc
            by_cases hC9 : (((descendantElems el).filter fun n => n.tagOf = str "tr").map
                fun tr => (tr.childrenOf.filter Node.isElem).map
                  fun td => jsTrim (cleanInline (textContent td))).isEmpty = true
            · rw [if_pos hC9] at hc; cases hc
            · rw [if_neg hC9] at hc
              simp only [List.mem_singleton] at hc
              subst hc
              show _ ≠ []
              intro hemp
              exact hC9 (by rw [hemp]; rfl)
          · rw [if_neg hC8] at hc
            by_cases hC10 : (el.tagOf = str "p" || el.tagOf = str "div" ||
                el.tagOf = str "section" || el.tagOf = str "article") = true
            · rw [if_pos hC10] at hc
              by_cases hC11 : hasBlockChildren el = true
              · rw [if_pos hC11] at hc; cases hc
              · rw [if_neg hC11] at hc
                by_cases hC12 : (jsTrim (cleanInline (textContent el))).isEmpty = true
                · rw [if_pos hC12] at hc; cases hc
                · rw [if_neg hC12] at hc
                  simp only [List.mem_singleton] at hc
                  subst hc
                  show _ ≠ []
                  intro hemp
                  exact hC12 (by rw [hemp]; rfl)
            · rw [if_neg hC10] at hc; cases hc

mutual
theorem chunkNode_nondegen : ∀ (n : Node) (anc : List Node),
    ∀ c ∈ chunkNode anc n, Nondegen c
  | .text _ => by intro anc c hc; cases hc
  | .elem t i cl h cs => by
      intro anc c hc
      unfold chunkNode at hc
      split_ifs at hc with hrej
      · cases hc
      · rcases List.mem_append.mp hc with h1 | h2
        · exact dispatchChunk_nondegen anc _ c h1
        · exact chunkList_nondegen cs _ c h2
theorem chunkList_nondegen : ∀ (ns : List Node) (anc : List Node),
    ∀ c ∈ chunkList anc ns, Nondegen c
  | [] => by intro anc c hc; cases hc
  | n :: ns => by
      intro anc c hc
      rcases List.mem_append.mp hc with h1 | h2
      · exact chunkNode_nondegen n anc c h1
      · exact chunkList_nondegen ns anc c h2
end

/-- C10. For every root, every non-heading chunk emitted by
`chunkDomToSemanticBlocks` is non-degenerate: paragraph and blockquote
chunks have non-empty text, a code chunk's code has a non-whitespace
character, a list chunk has at least one (in fact only) non-empty items,
a table chunk has at least one row; only heading chunks may be empty. -/
theorem chunkDom_nondegenerate (root : Node) :
    ∀ c ∈ chunkDomToSemanticBlocks root, Nondegen c := by
  intro c hc
  exact chunkList_nondegen root.childrenOf [] c hc

/-- A small document exercising the paragraph branch. -/
def exC10doc : Node :=
  .elem (str "body") [] [] false
    [.elem (str "p") [] [] false [.text (str "Hi there")]]

/-- Witness for C10: on a concrete document the emitted paragraph chunk is
non-degenerate. -/
theorem chunkDom_nondegenerate_witness :
    Chunk.paragraph (str "Hi there") ∈ chunkDomToSemanticBlocks exC10doc ∧
    Nondegen (Chunk.paragraph (str "Hi there")) :=
  have hm : Chunk.paragraph (str "Hi there") ∈ chunkDomToSemanticBlocks exC10doc := by
    decide
  ⟨hm, chunkDom_nondegenerate exC10doc _ hm⟩

/-! ## MarkdownRenderer and the extraction entry point

The host-environment inputs of `extractMainContent` — `location.href`,
`document.title`, `new Date().toISOString()`, the active selection, and the
`window.__customFilters` global that the sidebar sets before injecting —
are passed as explicit parameters to the embedded pipeline. -/

structure SelectionInfo where
  hasSelection : Bool
  text : Chars
  containerEl : Option Node
deriving DecidableEq

structure IncludeFlags where
  heading : Bool
  paragraph : Bool
  list : Bool
  code : Bool
  blockquote : Bool
  table : Bool
deriving DecidableEq

structure ExtractionContext where
  url : Chars
  title : Chars
  timestamp : Chars
  selectionHas : Bool
  selectionText : Chars
  breadcrumbs : List (Nat × Chars)
deriving DecidableEq

/-- `\s+`. -/
def reWsPlus : RE := .seq (.cls jsWs) (.starCls jsWs)

/-- `truncateInline(text, max)`: collapse all whitespace runs to single
spaces, trim, and ellipsis-truncate past `max`. -/
def truncateInline (text : Chars) (maxLen : Nat) : Chars :=
  let t := jsTrim (replaceAll reWsPlus (str " ") text)
  if t.length > maxLen then t.take (maxLen - 1) ++ ['…'] else t

/-- `document.querySelectorAll('h1, h2')` as `(level, cleaned text)` pairs —
the page breadcrumbs of `buildContext`. -/
def topHeadings (doc : Node) : List (Nat × Chars) :=
  ((allElemsWithAnc doc).filter fun q =>
      q.1.tagOf = str "h1" || q.1.tagOf = str "h2").map
    fun q => (headingLevel q.1.tagOf, cleanInline (textContent q.1))

/-- `buildContext(selectionInfo)`. -/
def buildContext (doc : Node) (sel : SelectionInfo) (url title timestamp : Chars) :
    ExtractionContext :=
  ⟨url, title, timestamp, sel.hasSelection, sel.text, topHeadings doc⟩

/-- Join with a multi-character separator (`Array.prototype.join`). -/
def joinSepStr (sep : Chars) : List Chars → Chars
  | [] => []
  | [x] => x
  | x :: y :: xs => x ++ sep ++ joinSepStr sep (y :: xs)

def tableRowLine (row : List Chars) : Chars :=
  str "| " ++ joinSepStr (str " | ") row ++ str " |"

/-- The body lines contributed by one chunk (the trailing blank line the
source pushes after every chunk is added by the caller). -/
def chunkLines (inc : IncludeFlags) : Chunk → List Chars
  | .heading level text _ =>
      if inc.heading then [List.replicate (min 6 level) '#' ++ ' ' :: text] else []
  | .paragraph text => if inc.paragraph then [text] else []
  | .list ordered items =>
      if inc.list then
        if ordered then
          items.mapIdx fun i item => (Nat.repr (i + 1)).data ++ str ". " ++ item
        else items.map fun item => str "- " ++ item
      else []
  | .code lang code => if inc.code then [str "```" ++ lang, code, str "```"] else []
  | .blockquote text =>
      if inc.blockquote then (splitOn '\n' text).map fun l => str "> " ++ l else []
  | .table rows =>
      if inc.table then
        match rows with
        | [] => []
        | r0 :: rest =>
            tableRowLine r0 ::
              ((if rest.isEmpty then [] else [tableRowLine (r0.map fun _ => str "---")]) ++
                rest.map tableRowLine)
      else []

/-- The header lines of `renderMarkdown`: the source's trailing `''` entry
is dropped by `.filter(Boolean)`, as are the two absent optional lines. -/
def headerLines (ctx : ExtractionContext) : List Chars :=
  [str "---", str "url: " ++ ctx.url, str "title: " ++ ctx.title,
   str "timestamp: " ++ ctx.timestamp] ++
  (if ctx.selectionHas then
    [str "selection_excerpt: " ++ truncateInline ctx.selectionText 300] else []) ++
  (if ctx.breadcrumbs.isEmpty then [] else
    [str "breadcrumbs: " ++ joinSepStr (str " | ")
      (ctx.breadcrumbs.map fun b => (if b.1 = 1 then str "# " else str "## ") ++ b.2)]) ++
  [str "---"]

/-- `renderMarkdown(chunks, include, context)`: header, body lines with a
blank line after every chunk, `join('\n').trim() + '\n'`, the boilerplate
filter over the body, then header and body concatenated. -/
def renderMarkdown (chunks : List Chunk) (inc : IncludeFlags)
    (ctx : ExtractionContext) (customFilters : Option Chars) : Chars :=
  let header := joinSep '\n' (headerLines ctx)
  let lines := chunks.flatMap fun c => chunkLines inc c ++ [[]]
  let body := jsTrim (joinSep '\n' lines) ++ ['\n']
  let body := filterMarkdown body customFilters
  header ++ body

structure ExtractResult where
  markdown : Chars
  chunks : List Chunk
  context : ExtractionContext
deriving DecidableEq

/-- `extractMainContent()`: root selection
(`selectionInfo.containerEl || mainEl || document.body`), chunking, and
rendering with every chunk type included. -/
def extractMainContent (doc : Node) (sel : SelectionInfo)
    (url title timestamp : Chars) (customFilters : Option Chars) : ExtractResult :=
  let mainEl := findMainContentElement doc
  let context := buildContext doc sel url title timestamp
  let root :=
    match sel.containerEl with
    | some c => c
    | none =>
        match mainEl with
        | some m => m
        | none => doc
  let chunks := chunkDomToSemanticBlocks root
  let incAll : IncludeFlags := ⟨true, true, true, true, true, true⟩
  let markdown := renderMarkdown chunks incAll context customFilters
  ⟨markdown, chunks, context⟩

/-! ### C8: clock dependence of the output text -/

theorem joinSep_cons_of_ne (sep : Char) (x : Chars) {xs : List Chars} (h : xs ≠ []) :
    joinSep sep (x :: xs) = x ++ sep :: joinSep sep xs := by
  cases xs with
  | nil => exact absurd rfl h
  | cons y ys => rfl

/-- The filtered body of the rendered output (everything after the header);
it does not depend on the timestamp. -/
def extractBody (doc : Node) (sel : SelectionInfo) (cf : Option Chars) : Chars :=
  filterMarkdown (jsTrim (joinSep '\n'
    ((chunkDomToSemanticBlocks
      (match sel.containerEl with
       | some c => c
       | none =>
          match findMainContentElement doc with
          | some m => m
          | none => doc)).flatMap
      fun c => chunkLines ⟨true, true, true, true, true, true⟩ c ++ [[]])) ++ ['\n']) cf

/-- The optional header lines (selection excerpt, breadcrumbs) plus the
closing delimiter; independent of the timestamp. -/
def headerRest (doc : Node) (sel : SelectionInfo) : List Chars :=
  (if sel.hasSelection then
    [str "selection_excerpt: " ++ truncateInline sel.text 300] else []) ++
  (if (topHeadings doc).isEmpty then [] else
    [str "breadcrumbs: " ++ joinSepStr (str " | ")
      ((topHeadings doc).map fun b =>
        (if b.1 = 1 then str "# " else str "## ") ++ b.2)]) ++
  [str "---"]

/-- The rendered text splits around the timestamp: everything before it and
everything after it are functions of the document, the selection, the page
metadata and the filter configuration alone. -/
theorem extract_markdown_split (doc : Node) (sel : SelectionInfo)
    (url title : Chars) (cf : Option Chars) :
    ∃ pre post : Chars, ∀ ts,
      (extractMainContent doc sel url title ts cf).markdown = pre ++ ts ++ post := by
  refine ⟨str "---" ++ '\n' :: ((str "url: " ++ url) ++ '\n' ::
      ((str "title: " ++ title) ++ '\n' :: str "timestamp: ")),
    ('\n' :: joinSep '\n' (headerRest doc sel)) ++ extractBody doc sel cf,
    fun ts => ?_⟩
  have hne : headerRest doc sel ≠ [] := by
    intro h
    have := congrArg List.length h
    simp [headerRest, List.length_append] at this
  have hlines : headerLines (buildContext doc sel url title ts)
      = str "---" :: (str "url: " ++ url) :: (str "title: " ++ title) ::
        (str "timestamp: " ++ ts) :: headerRest doc sel := rfl
  simp only [extractMainContent, renderMarkdown]
  rw [hlines, joinSep, joinSep, joinSep, joinSep_cons_of_ne '\n' _ hne]
  simp only [extractBody]
  simp [List.cons_append, List.append_assoc]

/-- C8 amended. Two runs of the extraction on the same unchanged document
(same selection, page metadata and filter configuration) produce
byte-identical output text if and only if their clock readings render the
same timestamp string; the header embeds `timestamp: <clock>`. -/
theorem extract_markdown_eq_iff_timestamp (doc : Node) (sel : SelectionInfo)
    (url title : Chars) (cf : Option Chars) (t t' : Chars) :
    (extractMainContent doc sel url title t cf).markdown
      = (extractMainContent doc sel url title t' cf).markdown ↔ t = t' := by
  obtain ⟨pre, post, hform⟩ := extract_markdown_split doc sel url title cf
  rw [hform t, hform t']
  constructor
  · intro h
    exact List.append_cancel_left (List.append_cancel_right h)
  · intro h
    rw [h]

def exC8doc : Node :=
  .elem (str "body") [] [] false
    [.elem (str "p") [] [] false [.text (str "Hello.")]]

def exC8sel : SelectionInfo := ⟨false, [], none⟩

/-- C8 counterexample: with the ambient clock free to differ, re-running the
extraction on the unchanged document is not byte-identical — the two
timestamps land in the header. -/
theorem extract_not_clock_invariant :
    (extractMainContent exC8doc exC8sel (str "u") (str "t")
        (str "2024-01-01T00:00:00.000Z") none).markdown
      ≠ (extractMainContent exC8doc exC8sel (str "u") (str "t")
        (str "2024-01-01T00:00:01.000Z") none).markdown := by
  have h := extract_markdown_eq_iff_timestamp exC8doc exC8sel (str "u") (str "t")
    none (str "2024-01-01T00:00:00.000Z") (str "2024-01-01T00:00:01.000Z")
  intro heq
  have := h.mp heq
  exact absurd this (by decide)

/-! ### C9: body fallback when nothing qualifies -/

theorem scanSel_of_no_matches (doc : Node) (sels : List Chars) :
    ∀ acc, (∀ s ∈ sels, queryAllWithAnc doc s = []) → scanSel doc sels acc = acc := by
  induction sels with
  | nil => intro acc _; rfl
  | cons sel rest ih =>
      intro acc h
      have h1 : queryAllWithAnc doc sel = [] := h sel (List.mem_cons_self _ _)
      simp only [scanSel, h1, scanElems]
      split
      · rfl
      · exact ih acc fun s hs => h s (List.mem_cons_of_mem _ hs)

/-- C9. When no content selector matches any element and no visible
paragraph reaches the 100-character qualifying length (and there is no
active selection), extraction does not fail: `findMainContentElement`
returns null, the pipeline takes the document body itself as the content
root, and chunking runs over the body. -/
theorem extract_falls_back_to_body (doc : Node) (url title ts : Chars)
    (cf : Option Chars)
    (h1 : ∀ q ∈ allElemsWithAnc doc, ∀ s ∈ contentSelectors, selMatches s q.1 = false)
    (h2 : ∀ q ∈ allElemsWithAnc doc, q.1.tagOf = str "p" → q.1.hiddenOf = false →
        (jsTrim (textContent q.1)).length < 100) :
    findMainContentElement doc = none ∧
    (extractMainContent doc ⟨false, [], none⟩ url title ts cf).chunks
      = chunkDomToSemanticBlocks doc := by
  have hq : ∀ s ∈ contentSelectors, queryAllWithAnc doc s = [] := by
    intro s hs
    unfold queryAllWithAnc
    rw [List.filter_eq_nil_iff]
    intro q hqm
    rw [h1 q hqm s hs]
    simp
  have hscan : scanSel doc contentSelectors (none, 0) = (none, 0) :=
    scanSel_of_no_matches doc contentSelectors (none, 0) hq
  have hmain : findMainContentElement doc = none := by
    simp only [findMainContentElement, hscan]
    rw [if_pos (by norm_num)]
    cases hbp : bestPara doc with
    | mk bp len =>
        cases bp with
        | none => rfl
        | some q =>
            cases q with
            | mk p anc =>
                obtain ⟨hmem, hlen, hhid⟩ := bestPara_inv doc p anc (by rw [hbp])
                rw [hbp] at hlen
                obtain ⟨hq1, hq2⟩ := List.mem_filter.mp hmem
                have hsmall : (jsTrim (textContent p)).length < 100 :=
                  h2 (p, anc) hq1 (by simpa using hq2) hhid
                have hlen' : len = (jsTrim (textContent p)).length := hlen
                show (if len > 100 then densityWalk anc else none) = none
                rw [if_neg (by omega)]
  refine ⟨hmain, ?_⟩
  simp only [extractMainContent, hmain]

def exC9doc : Node :=
  .elem (str "body") [] [] false
    [.elem (str "div") [] [] false [.text (str "hi")]]

/-- Witness for C9 at a concrete selector-free, paragraph-free document. -/
theorem extract_falls_back_to_body_witness :
    findMainContentElement exC9doc = none ∧
    (extractMainContent exC9doc ⟨false, [], none⟩ (str "u") (str "t")
        (str "ts") none).chunks
      = chunkDomToSemanticBlocks exC9doc :=
  extract_falls_back_to_body exC9doc (str "u") (str "t") (str "ts") none
    (by decide) (by decide)

/-! ### C3 and C4: boilerplate filtering behavior -/

/-- A rendered document with a keyword `##` section, a nested `###`
subsection, and a following real `##` section — the specification's
nested-removal scenario. -/
def c3doc : Chars := str
  "Intro paragraph.\n\n## Related Articles\n\n### Article A\n\nTeaser text.\n\n## Next Real Section\n\nReal body.\n"

/-- C3. Filtering the rendered markdown with the default rules removes both
the `## Related Articles` section and its nested `### Article A` subsection
(the removal boundary is anchored at the next H1/H2, never at the H3), and
leaves the following `## Next Real Section` heading and body intact. -/
theorem filterMarkdown_nested_removal :
    filterMarkdown c3doc none
      = str "Intro paragraph.\n\n## Next Real Section\n\nReal body.\n" ∧
    containsSeq (filterMarkdown c3doc none)
      (str "## Next Real Section\n\nReal body.") = true ∧
    containsSeq (filterMarkdown c3doc none) (str "Related Articles") = false ∧
    containsSeq (filterMarkdown c3doc none) (str "### Article A") = false := by
  have h : filterMarkdown c3doc none
      = str "Intro paragraph.\n\n## Next Real Section\n\nReal body.\n" := by decide
  refine ⟨h, ?_, ?_, ?_⟩ <;> rw [h] <;> decide

/-- The tail of `filterMarkdown` that runs even with an empty keyword rule
list: the fixed nested-`##` pass, the standalone-heading fixed point, the
whitespace collapsing, and `trim() + '\n'`. -/
def fixedPassesOnly (markdown : Chars) : Chars :=
  let content := replaceAll reNestedH2 (str "\n") markdown
  let content := fixLoopStandalone (content.length + 1) content
  let content := replaceAll reNewlines3 (str "\n\n") content
  let content := replaceAll reNlWsRuns (str "\n\n") content
  jsTrim content ++ ['\n']

theorem splitOn_mem_subset (sep : Char) : ∀ (s : Chars),
    ∀ piece ∈ splitOn sep s, ∀ c ∈ piece, c ∈ s := by
  intro s
  induction s with
  | nil =>
      intro piece hp c hc
      simp only [splitOn, List.mem_singleton] at hp
      subst hp
      cases hc
  | cons d ds ih =>
      intro piece hp c hc
      simp only [splitOn] at hp
      by_cases hd : d = sep
      · rw [if_pos hd] at hp
        rcases List.mem_cons.mp hp with rfl | hmem
        · cases hc
        · exact List.mem_cons_of_mem _ (ih piece hmem c hc)
      · rw [if_neg hd] at hp
        cases hsp : splitOn sep ds with
        | nil =>
            rw [hsp] at hp
            simp only [List.mem_singleton] at hp
            subst hp
            rcases List.mem_singleton.mp hc with rfl
            exact List.mem_cons_self _ _
        | cons r rs =>
            rw [hsp] at hp
            rcases List.mem_cons.mp hp with rfl | hmem
            · rcases List.mem_cons.mp hc with rfl | hcr
              · exact List.mem_cons_self _ _
              · exact List.mem_cons_of_mem _
                  (ih r (by rw [hsp]; exact List.mem_cons_self _ _) c hcr)
            · exact List.mem_cons_of_mem _
                (ih piece (by rw [hsp]; exact List.mem_cons_of_mem _ hmem) c hc)

theorem jsTrim_of_allWs {s : Chars} (h : ∀ c ∈ s, jsWs c = true) : jsTrim s = [] := by
  unfold jsTrim
  rw [show s.dropWhile jsWs = [] from List.dropWhile_eq_nil_iff.mpr h]
  rfl

theorem parseCustom_wsOnly (cf : Chars) (h : ∀ c ∈ cf, jsWs c = true) :
    parseCustomPatterns cf = [] := by
  unfold parseCustomPatterns
  have hnone : ∀ line ∈ splitOn '\n' cf,
      ¬ ((!(jsTrim line).isEmpty && !leadsWith (jsTrim line) (str "#")) = true) := by
    intro line hline
    have hws : ∀ c ∈ line, jsWs c = true := fun c hc =>
      h c (splitOn_mem_subset '\n' cf line hline c hc)
    rw [jsTrim_of_allWs hws]
    simp
  rw [List.filter_eq_nil_iff.mpr hnone]
  rfl

/-- C4 amended. A null or empty-string `customFilters` falls back to the
built-in default patterns; a whitespace-only non-empty string is truthy, so
it is parsed instead — yielding an empty custom rule list, and only the
fixed built-in passes run (not the default keyword rules). -/
theorem filterMarkdown_default_fallback (md cf : Chars) :
    (filterMarkdown md (some []) = filterMarkdown md none) ∧
    (cf ≠ [] → (∀ c ∈ cf, jsWs c = true) →
      filterMarkdown md (some cf) = fixedPassesOnly md) := by
  constructor
  · rfl
  · intro hne hws
    have hp : parseCustomPatterns cf = [] := parseCustom_wsOnly cf hws
    have htr : jsTruthy (some cf) = true := by
      cases cf with
      | nil => exact absurd rfl hne
      | cons c cs => rfl
    simp only [filterMarkdown, htr, hp, Option.getD_some, List.filterMap_nil,
      List.foldl_nil, if_true, fixedPassesOnly]

/-- Witness for C4 amended at concrete inputs. -/
theorem filterMarkdown_default_fallback_witness :
    (filterMarkdown (str "A.\n") (some []) = filterMarkdown (str "A.\n") none) ∧
    filterMarkdown (str "A.\n") (some (str " ")) = fixedPassesOnly (str "A.\n") :=
  ⟨(filterMarkdown_default_fallback (str "A.\n") (str " ")).1,
   (filterMarkdown_default_fallback (str "A.\n") (str " ")).2 (by decide) (by decide)⟩

/-- A document whose `## Comments` section only the default keyword rules
would remove. -/
def c4doc : Chars := str "Intro.\n\n## Comments\n\nFoo bar.\n"

/-- C4 counterexample: a whitespace-only (non-empty) `customFilters` string
does not apply the built-in default keyword rules — the `## Comments`
section survives, while the default rules remove it. -/
theorem filterMarkdown_wsOnly_claim_false :
    filterMarkdown c4doc (some (str " ")) ≠ filterMarkdown c4doc none ∧
    filterMarkdown c4doc (some (str " "))
      = str "Intro.\n\n## Comments\n\nFoo bar.\n" ∧
    filterMarkdown c4doc none = str "Intro.\n" := by
  have h1 : filterMarkdown c4doc (some (str " "))
      = str "Intro.\n\n## Comments\n\nFoo bar.\n" := by decide
  have h2 : filterMarkdown c4doc none = str "Intro.\n" := by decide
  exact ⟨by rw [h1, h2]; decide, h1, h2⟩
